import Mathlib

/-!
Verification model of the falconeri job scheduler.

We give a shallow embedding of the core state-manipulating operations of the
scheduler: the datum reservation protocol (`Job.reserve_next_datum`), job
status derivation (`Job.update_status_if_done`), the babysitter reconciliation
steps, the HTTP datum patch handler, job retry, and the datum planner
(`input_to_datums_helper` and friends).

The database is modelled as explicit lists of rows (`DB`); each SQL statement
becomes a pure function on `DB`.  `SELECT ... LIMIT 1` becomes `List.find?`
(the first matching row), `UPDATE ... WHERE id = k` maps an update function
over the rows with the matching id, transactions become sequential composition
(each modelled operation corresponds to one source transaction, which executes
atomically), and fallible operations return `Except String`.  Timestamps are
not modelled except for `Job.created_at` (a `Nat`), which the babysitter's
vanished-job rule consults; row ids are `Nat` in place of UUIDs.
-/

deriving instance DecidableEq for Except

namespace Falconeri

/-- Record status, shared by jobs, datums and output files
(from falconeri_common/src/models/mod.rs). -/
inductive Status where
  | ready
  | running
  | done
  | error
  | canceled
deriving DecidableEq, Repr, Inhabited

/-- True if a status is terminal: completed successfully, failed beyond
recovery, or cancelled (Status::has_finished in models/mod.rs). -/
def Status.has_finished : Status → Bool
  | .ready | .running => false
  | .done | .error | .canceled => true

/-- A row of the jobs table (falconeri_common/src/models/job.rs).  The
pipeline_spec, command and egress_uri columns are irrelevant to every claim
and are omitted; created_at is an abstract tick count. -/
structure Job where
  id : Nat
  created_at : Nat
  status : Status
  job_name : String
deriving DecidableEq, Repr

/-- A row of the datums table (falconeri_common/src/models/datum.rs). -/
structure Datum where
  id : Nat
  status : Status
  job_id : Nat
  error_message : Option String
  node_name : Option String
  pod_name : Option String
  backtrace : Option String
  output : Option String
  attempted_run_count : Nat
  maximum_allowed_run_count : Nat
deriving DecidableEq, Repr

/-- A row of the input_files table (falconeri_common/src/models/input_file.rs). -/
structure InputFile where
  id : Nat
  datum_id : Nat
  uri : String
  local_path : String
  job_id : Nat
deriving DecidableEq, Repr

/-- A row of the output_files table (falconeri_common/src/models/output_file.rs). -/
structure OutputFile where
  id : Nat
  status : Status
  job_id : Nat
  datum_id : Nat
  uri : String
deriving DecidableEq, Repr

/-- The persistent state store: the four tables owned by the service. -/
structure DB where
  jobs : List Job
  datums : List Datum
  input_files : List InputFile
  output_files : List OutputFile
deriving DecidableEq, Repr

/-- Job::find: look a job row up by id (SELECT first matching row). -/
def DB.findJob (db : DB) (id : Nat) : Option Job :=
  db.jobs.find? fun j => j.id == id

/-- Datum::find: look a datum row up by id. -/
def DB.findDatum (db : DB) (id : Nat) : Option Datum :=
  db.datums.find? fun d => d.id == id

/-- Datum::belonging_to(job): the datums owned by a job. -/
def DB.jobDatums (db : DB) (jobId : Nat) : List Datum :=
  db.datums.filter fun d => d.job_id == jobId

/-- InputFile::belonging_to(datum): the input files of a datum. -/
def DB.inputFilesOf (db : DB) (datumId : Nat) : List InputFile :=
  db.input_files.filter fun f => f.datum_id == datumId

/-- OutputFile::belonging_to(datum): the output files of a datum. -/
def DB.outputFilesOf (db : DB) (datumId : Nat) : List OutputFile :=
  db.output_files.filter fun f => f.datum_id == datumId

/-- UPDATE datums SET ... WHERE id = id: apply f to every datum row whose id
matches. -/
def DB.updateDatumRow (db : DB) (id : Nat) (f : Datum → Datum) : DB :=
  { db with datums := db.datums.map fun d => if d.id = id then f d else d }

/-- UPDATE jobs SET ... WHERE id = id: apply f to every job row whose id
matches. -/
def DB.updateJobRow (db : DB) (id : Nat) (f : Job → Job) : DB :=
  { db with jobs := db.jobs.map fun j => if j.id = id then f j else j }

/-- The status of job J as stored in the database, if the job exists. -/
def DB.jobStatus (db : DB) (jobId : Nat) : Option Status :=
  (db.findJob jobId).map Job.status

/-! ## The reservation protocol (models/job.rs) -/

/-- Job::find_already_reserved_datum: any datum of this job which is running
on the given pod (the idempotent-recovery query). -/
def Job.find_already_reserved_datum (db : DB) (jobId : Nat) (pod_name : String) :
    Option Datum :=
  db.datums.find? fun d =>
    d.job_id == jobId && d.pod_name == some pod_name && d.status == Status.running

/-- The column updates applied by the UPDATE statement inside
Job::actually_reserve_next_datum. -/
def reserveUpdate (node_name pod_name : String) (d : Datum) : Datum :=
  { d with
    status := Status.running
    node_name := some node_name
    pod_name := some pod_name
    attempted_run_count := d.attempted_run_count + 1 }

/-- Job::actually_reserve_next_datum: SELECT id FROM datums WHERE job_id = J
AND status = ready FOR UPDATE SKIP LOCKED LIMIT 1, then, if a row was found,
UPDATE it to running and return the updated row.  (A sequential execution of
the skip-locked dequeue selects the first ready row.) -/
def Job.actually_reserve_next_datum (db : DB) (jobId : Nat)
    (node_name pod_name : String) : Option Datum × DB :=
  match db.datums.find? (fun d => d.job_id == jobId && d.status == Status.ready) with
  | none => (none, db)
  | some d0 =>
    (some (reserveUpdate node_name pod_name d0),
     db.updateDatumRow d0.id (reserveUpdate node_name pod_name))

/-- Job::reserve_next_datum: idempotent-recovery lookup first; otherwise the
atomic reservation; then load the input files of the reserved datum. -/
def Job.reserve_next_datum (db : DB) (jobId : Nat) (node_name pod_name : String) :
    Option (Datum × List InputFile) × DB :=
  match Job.find_already_reserved_datum db jobId pod_name with
  | some d => (some (d, db.inputFilesOf d.id), db)
  | none =>
    match Job.actually_reserve_next_datum db jobId node_name pod_name with
    | (some d, db') => (some (d, db'.inputFilesOf d.id), db')
    | (none, db') => (none, db')

/-! ## Datum row mutations (models/datum.rs) -/

/-- Datum::is_rerunable: errored and attempts not yet at the cap. -/
def Datum.is_rerunable (d : Datum) : Bool :=
  d.status == Status.error &&
    decide (d.attempted_run_count < d.maximum_allowed_run_count)

/-- Datum::rerunable: all datums of running jobs which have errored but can
be re-run (inner join with jobs, filtered on job running, datum error,
attempted_run_count < maximum_allowed_run_count). -/
def Datum.rerunable (db : DB) : List Datum :=
  db.datums.filter fun d =>
    (match db.findJob d.job_id with
     | some j => j.status == Status.running
     | none => false)
    && d.status == Status.error
    && decide (d.attempted_run_count < d.maximum_allowed_run_count)

/-- Column updates of Datum::mark_as_done. -/
def Datum.markDoneRow (output : String) (d : Datum) : Datum :=
  { d with status := Status.done, output := some output }

/-- Column updates of Datum::mark_as_error. -/
def Datum.markErrorRow (output error_message backtrace : String) (d : Datum) : Datum :=
  { d with
    status := Status.error
    output := some output
    error_message := some error_message
    backtrace := some backtrace }

/-- Column updates of Datum::mark_as_eligible_for_rerun: only the status is
set back to ready; attempted_run_count is deliberately not incremented here
(that happens in Job::actually_reserve_next_datum). -/
def Datum.markEligibleRow (d : Datum) : Datum :=
  { d with status := Status.ready }

/-- OutputFile::delete_for_datum: DELETE FROM output_files WHERE datum_id. -/
def OutputFile.delete_for_datum (db : DB) (datumId : Nat) : DB :=
  { db with output_files := db.output_files.filter fun f => !(f.datum_id == datumId) }

/-! ## Job status derivation (models/job.rs) -/

/-- One row of the grouped status-count query (struct DatumStatusCount). -/
structure DatumStatusCount where
  status : Status
  count : Nat
  rerunable_count : Nat
deriving DecidableEq, Repr

/-- The per-group count of the SQL expression
count(*) filter (where status = error and attempted_run_count <
maximum_allowed_run_count): rows of this status group satisfying the re-run
predicate. -/
def groupCount (l : List Datum) (s : Status) : DatumStatusCount :=
  { status := s
    count := l.countP fun d => d.status == s
    rerunable_count := l.countP fun d =>
      d.status == s && d.status == Status.error &&
        decide (d.attempted_run_count < d.maximum_allowed_run_count) }

/-- Job::datum_status_counts: GROUP BY status over the job's datums, keeping
only groups with a positive count. -/
def Job.datum_status_counts (db : DB) (jobId : Nat) : List DatumStatusCount :=
  let l := db.jobDatums jobId
  ([Status.ready, Status.running, Status.done, Status.error, Status.canceled].map
      (groupCount l)).filter fun sc => decide (0 < sc.count)

/-- Accumulator of the classification loop in Job::update_status_if_done. -/
structure StatusTally where
  unfinished : Nat
  successful : Nat
  failed : Nat
  rerunable : Nat
deriving DecidableEq, Repr

/-- One step of the classification loop in Job::update_status_if_done. -/
def tallyStep (acc : StatusTally) (sc : DatumStatusCount) : StatusTally :=
  match sc.status with
  | Status.ready | Status.running => { acc with unfinished := acc.unfinished + sc.count }
  | Status.done => { acc with successful := acc.successful + sc.count }
  | Status.error =>
    { acc with
      failed := acc.failed + (sc.count - sc.rerunable_count)
      rerunable := acc.rerunable + sc.rerunable_count }
  | Status.canceled => { acc with failed := acc.failed + sc.count }

/-- The body of Job::update_status_if_done once the job row is locked and
known to be running: classify the datum counts and decide the new status. -/
def updateStatusDecision (db : DB) (jobId : Nat) : Option Status :=
  let c := (Job.datum_status_counts db jobId).foldl tallyStep ⟨0, 0, 0, 0⟩
  if 0 < c.unfinished || 0 < c.rerunable then none
  else if 0 < c.failed then some Status.error
  else some Status.done

/-- Job::update_status_if_done: lock the job row; if it is no longer running
return without writing; otherwise classify the datums and, if every datum is
settled, write the terminal status. -/
def Job.update_status_if_done (db : DB) (jobId : Nat) : Except String DB :=
  match db.findJob jobId with
  | none => Except.error "could not load job"
  | some job =>
    if job.status ≠ Status.running then Except.ok db
    else
      match updateStatusDecision db jobId with
      | none => Except.ok db
      | some s => Except.ok (db.updateJobRow jobId fun j => { j with status := s })

/-- Job::mark_as_error: unconditionally set the job's status to error. -/
def Job.mark_as_error (db : DB) (jobId : Nat) : DB :=
  db.updateJobRow jobId fun j => { j with status := Status.error }

/-! ## The HTTP datum patch handler (falconerid/src/main.rs) -/

/-- rest_api::DatumPatch: body of PATCH /datums/<id>. -/
structure DatumPatch where
  status : Status
  output : String
  error_message : Option String
  backtrace : Option String
deriving DecidableEq, Repr

/-- Datum::update_job_status_if_done: load the owning job and run
Job::update_status_if_done on it. -/
def Datum.update_job_status_if_done (db : DB) (d : Datum) : Except String DB :=
  match db.findJob d.job_id with
  | none => Except.error "could not load job"
  | some _ => Job.update_status_if_done db d.job_id

/-- patch_datum (falconerid/src/main.rs): load the datum, apply the requested
patch if it is one of the two supported shapes, reject every other shape, and
finally derive the owning job's status.  Returns the updated datum. -/
def patch_datum (db : DB) (datumId : Nat) (patch : DatumPatch) :
    Except String (Datum × DB) := do
  match db.findDatum datumId with
  | none => Except.error "could not load datum"
  | some datum =>
    match patch with
    | ⟨Status.done, output, none, none⟩ =>
      let datum' := Datum.markDoneRow output datum
      let db' := db.updateDatumRow datumId (Datum.markDoneRow output)
      let db'' ← Datum.update_job_status_if_done db' datum'
      Except.ok (datum', db'')
    | ⟨Status.error, output, some error_message, some backtrace⟩ =>
      let datum' := Datum.markErrorRow output error_message backtrace datum
      let db' := db.updateDatumRow datumId (Datum.markErrorRow output error_message backtrace)
      let db'' ← Datum.update_job_status_if_done db' datum'
      Except.ok (datum', db'')
    | _ => Except.error "cannot update datum"

/-! ## Job retry (falconerid/src/start_job.rs) -/

/-- retry_job: only allowed when the original job's status is error.  Inserts
a brand-new job (created running, per the jobs table default), plus one fresh
ready datum per error datum of the original job, cloning the input files.
The fresh uuids, the new job name and the datum run-count default (which come
from uuid generation and the table defaults) are passed as parameters.  The
original job's rows are only read, never written. -/
def retry_job (db : DB) (jobId : Nat) (newJobId : Nat) (newJobName : String)
    (now : Nat) (newDatumIds : List Nat) (defaultMax : Nat) :
    Except String (Job × DB) :=
  match db.findJob jobId with
  | none => Except.error "could not load job"
  | some job =>
    if job.status ≠ Status.error then
      Except.error "can only retry jobs with status error"
    else
      let error_datums := (db.jobDatums jobId).filter fun d => d.status == Status.error
      let newJob : Job :=
        { id := newJobId, created_at := now, status := Status.running,
          job_name := newJobName }
      let pairs := error_datums.zip newDatumIds
      let newDatums := pairs.map fun p =>
        { id := p.2, status := Status.ready, job_id := newJobId,
          error_message := none, node_name := none, pod_name := none,
          backtrace := none, output := none, attempted_run_count := 0,
          maximum_allowed_run_count := defaultMax : Datum }
      let newFiles := pairs.flatMap fun p =>
        (db.inputFilesOf p.1.id).map fun f =>
          { f with datum_id := p.2, job_id := newJobId }
      Except.ok (newJob,
        { db with
          jobs := db.jobs ++ [newJob]
          datums := db.datums ++ newDatums
          input_files := db.input_files ++ newFiles })

/-! ## The babysitter (falconerid/src/babysitter.rs) -/

/-- The per-job transaction body of check_for_finished_and_vanished_jobs:
lock the job row, let Job::update_status_if_done catch any missed completion,
then, if the job is still running, is older than the cutoff, and has no
corresponding Kubernetes job, mark it as error. -/
def vanished_job_check (db : DB) (jobId : Nat) (all_job_names : List String)
    (cutoff : Nat) : Except String DB :=
  match db.findJob jobId with
  | none => Except.error "could not load job"
  | some _ =>
    match Job.update_status_if_done db jobId with
    | Except.error e => Except.error e
    | Except.ok db1 =>
      match db1.findJob jobId with
      | none => Except.error "could not load job"
      | some job =>
        if job.status == Status.running && decide (job.created_at < cutoff)
            && !(all_job_names.contains job.job_name) then
          Except.ok (Job.mark_as_error db1 jobId)
        else
          Except.ok db1

/-- check_for_finished_and_vanished_jobs: run the per-job body for every job
loaded with status running.  all_job_names is the Kubernetes adapter's answer
and cutoff the 15-minute age threshold, both passed as parameters. -/
def check_for_finished_and_vanished_jobs (db : DB) (all_job_names : List String)
    (cutoff : Nat) : Except String DB :=
  (db.jobs.filter fun j => j.status == Status.running).foldlM
    (fun acc j => vanished_job_check acc j.id all_job_names cutoff) db

/-- Datum::active_with_status running, intersected with the complement of the
currently running pod names: the zombie datums (Datum::zombies). -/
def Datum.zombies (db : DB) (running_pod_names : List String) : List Datum :=
  (db.datums.filter fun d =>
      (match db.findJob d.job_id with
       | some j => j.status == Status.running
       | none => false)
      && d.status == Status.running).filter fun d =>
    match d.pod_name with
    | some p => !(running_pod_names.contains p)
    | none => true

/-- The per-datum transaction body of check_for_zombie_datums: lock the datum
row, double-check it is still running, mark it as error with the synthetic
diagnostics, then derive the owning job's status. -/
def zombie_datum_check (db : DB) (datumId : Nat) : Except String DB := do
  match db.findDatum datumId with
  | none => Except.error "could not load datum"
  | some z =>
    let db' :=
      if z.status == Status.running then
        db.updateDatumRow datumId
          (Datum.markErrorRow "(did not capture output)"
            "worker pod disappeared while working on datum"
            "(no backtrace available)")
      else db
    Datum.update_job_status_if_done db' z

/-- check_for_zombie_datums: run the per-datum body for every zombie. -/
def check_for_zombie_datums (db : DB) (running_pod_names : List String) :
    Except String DB :=
  (Datum.zombies db running_pod_names).foldlM
    (fun acc z => zombie_datum_check acc z.id) db

/-- The per-datum transaction body of check_for_datums_which_can_be_rerun:
lock the datum row, re-check eligibility, mark it as eligible for re-run when
the check passes, and in every case delete its OutputFile records. -/
def rerun_one (db : DB) (datumId : Nat) : Except String DB := do
  match db.findDatum datumId with
  | none => Except.error "could not load datum"
  | some d =>
    let db' :=
      if d.is_rerunable then db.updateDatumRow datumId Datum.markEligibleRow
      else db
    Except.ok (OutputFile.delete_for_datum db' datumId)

/-- check_for_datums_which_can_be_rerun: run the per-datum body for every
datum the rerunable query returned. -/
def check_for_datums_which_can_be_rerun (db : DB) : Except String DB :=
  (Datum.rerunable db).foldlM (fun acc d => rerun_one acc d.id) db

/-! ## The datum planner (falconeri/src/inputs.rs, falconeri/src/pipeline.rs) -/

/-- pipeline::Glob: the two supported glob values. -/
inductive Glob where
  | wholeRepo
  | topLevelDirectoryEntries
deriving DecidableEq, Repr

/-- pipeline::Input: a recursive pipeline input expression. -/
inductive Input where
  | atom (uri : String) (repo : String) (glob : Glob)
  | cross (inputs : List Input)
  | union (inputs : List Input)

/-- Dropping the last element of a nonempty list strictly shrinks its size
(used for the termination of the planner's cross recursion). -/
theorem sizeOf_dropLast_lt {α} [SizeOf α] (l : List α) (h : l ≠ []) :
    sizeOf l.dropLast < sizeOf l := by
  induction l with
  | nil => exact absurd rfl h
  | cons a t ih =>
    cases t with
    | nil => simp
    | cons b t' =>
      have ht := ih (by simp)
      have hd : (a :: b :: t').dropLast = a :: (b :: t').dropLast := rfl
      rw [hd, List.cons.sizeOf_spec, List.cons.sizeOf_spec]
      omega

/-- inputs::InputFileData: a NewInputFile before ids are minted. -/
structure InputFileData where
  uri : String
  local_path : String
deriving DecidableEq, Repr

/-- inputs::DatumData: a NewDatum with its input files, before ids are
minted. -/
structure DatumData where
  input_files : List InputFileData
deriving DecidableEq, Repr

/-- The storage adapter's list operation, abstracted as a function from a uri
to either the listed child uris or a StorageError. -/
def Listing : Type := String → Except String (List String)

/-- Does the string end with a slash?  (Rust str::ends_with with a single
slash character, phrased over the character list so that it evaluates in the
kernel.) -/
def ends_with_slash (s : String) : Bool :=
  s.data.getLast? == some '/'

/-- inputs::uri_to_local_path: take everything from the final slash of the
uri onward (slash included) as the basename and place it under /pfs/<repo>.
(Rust str::rfind followed by slicing, phrased over the character list.) -/
def uri_to_local_path (uri repo : String) : Except String String :=
  if uri.data.contains '/' then
    let after := (uri.data.reverse.takeWhile fun c => c != '/').reverse
    let basename := String.mk ('/' :: after)
    if basename = "" then Except.error "uri ends with a slash"
    else Except.ok ("/pfs/" ++ repo ++ basename)
  else Except.error "no slash in uri"

/-- inputs::atom_to_datums_helper: normalize the uri to end with a slash,
list the uri (for both glob modes, so an inaccessible WholeRepo aborts
planning), then emit one whole-repo datum or one datum per listed entry. -/
def atom_to_datums_helper (list : Listing) (uri repo : String) (glob : Glob) :
    Except String (List DatumData) := do
  let base := if ends_with_slash uri then uri else uri ++ "/"
  let file_uris ← list uri
  match glob with
  | Glob.wholeRepo =>
    Except.ok [{ input_files := [{ uri := base, local_path := "/pfs/" ++ repo }] }]
  | Glob.topLevelDirectoryEntries =>
    file_uris.mapM fun file_uri => do
      let local_path ← uri_to_local_path file_uri repo
      Except.ok ({ input_files := [{ uri := file_uri, local_path }] } : DatumData)

mutual

/-- inputs::input_to_datums_helper: evaluate an input expression to datums;
a union concatenates the datums of its children in order. -/
def input_to_datums_helper (list : Listing) (input : Input) :
    Except String (List DatumData) :=
  match input with
  | Input.atom uri repo glob => atom_to_datums_helper list uri repo glob
  | Input.cross inputs => cross_to_datums_helper list inputs
  | Input.union inputs => union_to_datums_helper list inputs
termination_by sizeOf input

/-- The for loop of the union case of inputs::input_to_datums_helper. -/
def union_to_datums_helper (list : Listing) (inputs : List Input) :
    Except String (List DatumData) :=
  match inputs with
  | [] => Except.ok []
  | child :: rest => do
    let ds ← input_to_datums_helper list child
    let rest' ← union_to_datums_helper list rest
    Except.ok (ds ++ rest')
termination_by sizeOf inputs

/-- inputs::cross_to_datums_helper: the cross of no inputs is empty, of one
input is that input's datums, and otherwise the cross of all but the last
input is combined pairwise with the last input's datums, concatenating input
files. -/
def cross_to_datums_helper (list : Listing) (inputs : List Input) :
    Except String (List DatumData) :=
  match inputs with
  | [] => Except.ok []
  | [input] => input_to_datums_helper list input
  | i :: j :: rest => do
    let datums_0 ← cross_to_datums_helper list (i :: j :: rest).dropLast
    let datums_1 ←
      input_to_datums_helper list ((i :: j :: rest).getLast (by simp))
    Except.ok (datums_0.flatMap fun datum_0 =>
      datums_1.map fun datum_1 =>
        { input_files := datum_0.input_files ++ datum_1.input_files })
termination_by sizeOf inputs
decreasing_by
  · simp
    omega
  · apply sizeOf_dropLast_lt
    simp
  · apply List.sizeOf_lt_of_mem
    apply List.getLast_mem

end

/-! ## Count abbreviations and concrete fixtures used by the theorems -/

/-- The already-reserved query predicate of Job::find_already_reserved_datum. -/
def reservedPred (jobId : Nat) (pod_name : String) (d : Datum) : Bool :=
  d.job_id == jobId && d.pod_name == some pod_name && d.status == Status.running

/-- A concrete ready datum used to exercise the reservation theorems. -/
def dC1 : Datum :=
  { id := 10, status := Status.ready, job_id := 1, error_message := none,
    node_name := none, pod_name := none, backtrace := none, output := none,
    attempted_run_count := 0, maximum_allowed_run_count := 3 }

/-- A concrete input file belonging to dC1. -/
def fC1 : InputFile :=
  { id := 100, datum_id := 10, uri := "gs://b/in/a.csv",
    local_path := "/pfs/in/a.csv", job_id := 1 }

/-- A concrete one-job one-datum database in which job 1 is running. -/
def dbC1 : DB :=
  { jobs := [{ id := 1, created_at := 0, status := Status.running,
               job_name := "j-abc" }],
    datums := [dC1], input_files := [fC1], output_files := [] }

/-- Datums still to be processed: ready or running. -/
def unfinishedCount (l : List Datum) : Nat :=
  l.countP fun d => d.status == Status.ready || d.status == Status.running

/-- Datums processed successfully. -/
def successfulCount (l : List Datum) : Nat :=
  l.countP fun d => d.status == Status.done

/-- Errored datums that still have retries available. -/
def rerunableCount (l : List Datum) : Nat :=
  l.countP fun d =>
    d.status == Status.error &&
      decide (d.attempted_run_count < d.maximum_allowed_run_count)

/-- Errored datums with retries exhausted, plus canceled datums. -/
def failedCount (l : List Datum) : Nat :=
  (l.countP fun d =>
    d.status == Status.error &&
      decide (d.maximum_allowed_run_count ≤ d.attempted_run_count))
  + l.countP fun d => d.status == Status.canceled

/-- A concrete running job whose single datum is done. -/
def jobC2 : Job :=
  { id := 2, created_at := 0, status := Status.running, job_name := "w-abc" }

/-- A concrete database for exercising the completion decision. -/
def dbC2 : DB :=
  { jobs := [jobC2],
    datums := [{ id := 20, status := Status.done, job_id := 2,
                 error_message := none, node_name := none, pod_name := none,
                 backtrace := none, output := none, attempted_run_count := 1,
                 maximum_allowed_run_count := 3 }],
    input_files := [], output_files := [] }

/-- A concrete database with a terminal (done) job 4 next to a running job 5
with an errored datum. -/
def dbC4 : DB :=
  { jobs := [{ id := 4, created_at := 0, status := Status.done,
               job_name := "old-job" },
             { id := 5, created_at := 1, status := Status.running,
               job_name := "new-job" }],
    datums := [{ id := 40, status := Status.done, job_id := 4,
                 error_message := none, node_name := none, pod_name := none,
                 backtrace := none, output := none, attempted_run_count := 1,
                 maximum_allowed_run_count := 3 },
               { id := 50, status := Status.error, job_id := 5,
                 error_message := some "boom", node_name := some "n",
                 pod_name := some "p", backtrace := none, output := none,
                 attempted_run_count := 1, maximum_allowed_run_count := 3 }],
    input_files := [], output_files := [] }

/-- A concrete running job for the retry-cap witness. -/
def jobC6 : Job :=
  { id := 6, created_at := 0, status := Status.running, job_name := "j-cap" }

/-- A concrete errored datum with retries exhausted (3 of 3 attempts). -/
def dC6 : Datum :=
  { id := 60, status := Status.error, job_id := 6,
    error_message := some "boom", node_name := some "n", pod_name := some "p",
    backtrace := none, output := none, attempted_run_count := 3,
    maximum_allowed_run_count := 3 }

/-- A concrete database in which job 6 only has the exhausted datum left. -/
def dbC6 : DB :=
  { jobs := [jobC6], datums := [dC6], input_files := [], output_files := [] }

/-- A concrete database for the requeue witness: an errored datum with
retries left, owned by a running job, with one OutputFile row. -/
def dbC7 : DB :=
  { jobs := [{ id := 7, created_at := 0, status := Status.running,
               job_name := "j-rq" }],
    datums := [{ id := 70, status := Status.error, job_id := 7,
                 error_message := some "boom", node_name := some "n",
                 pod_name := some "p", backtrace := none, output := none,
                 attempted_run_count := 1, maximum_allowed_run_count := 3 }],
    input_files := [],
    output_files := [{ id := 700, status := Status.running, job_id := 7,
                       datum_id := 70, uri := "gs://b/out/x" }] }

/-- The datum of dbC7. -/
def dC7 : Datum :=
  { id := 70, status := Status.error, job_id := 7,
    error_message := some "boom", node_name := some "n", pod_name := some "p",
    backtrace := none, output := none, attempted_run_count := 1,
    maximum_allowed_run_count := 3 }

/-- A concrete database for the unconditional-deletion witness: datum 80 is
running (re-reserved by a worker) yet still has an OutputFile row from a
previous attempt. -/
def dbC10 : DB :=
  { jobs := [{ id := 8, created_at := 0, status := Status.running,
               job_name := "j-del" }],
    datums := [{ id := 80, status := Status.running, job_id := 8,
                 error_message := none, node_name := some "n",
                 pod_name := some "p", backtrace := none, output := none,
                 attempted_run_count := 2, maximum_allowed_run_count := 3 }],
    input_files := [],
    output_files := [{ id := 800, status := Status.running, job_id := 8,
                       datum_id := 80, uri := "gs://b/out/y" }] }

/-- The datum of dbC10. -/
def dC10 : Datum :=
  { id := 80, status := Status.running, job_id := 8,
    error_message := none, node_name := some "n", pod_name := some "p",
    backtrace := none, output := none, attempted_run_count := 2,
    maximum_allowed_run_count := 3 }

/-- A concrete database whose datum 30 is in status error under running
job 3. -/
def dbC8 : DB :=
  { jobs := [{ id := 3, created_at := 0, status := Status.running,
               job_name := "j-patch" }],
    datums := [{ id := 30, status := Status.error, job_id := 3,
                 error_message := some "boom", node_name := some "n",
                 pod_name := some "p", backtrace := none, output := none,
                 attempted_run_count := 1, maximum_allowed_run_count := 3 }],
    input_files := [], output_files := [] }

/-- A well-formed done patch. -/
def patchC8 : DatumPatch :=
  { status := Status.done, output := "out", error_message := none,
    backtrace := none }

/-- The datum of dbC8. -/
def dC8 : Datum :=
  { id := 30, status := Status.error, job_id := 3,
    error_message := some "boom", node_name := some "n", pod_name := some "p",
    backtrace := none, output := none, attempted_run_count := 1,
    maximum_allowed_run_count := 3 }

/-- The job of dbC8. -/
def jobC8 : Job :=
  { id := 3, created_at := 0, status := Status.running, job_name := "j-patch" }

/-- A concrete listing environment: only gs://b/in is listable. -/
def listingC9 : Listing := fun u =>
  if u = "gs://b/in" then
    Except.ok ["gs://b/in/a.csv", "gs://b/in/b.csv"]
  else
    Except.error "listing error"

/-- The pairwise cross product computed by the nested loops of
inputs::cross_to_datums_helper: one output datum per pair, carrying the
concatenated input files. -/
def crossProductDatums (as bs : List DatumData) : List DatumData :=
  as.flatMap fun a => bs.map fun b =>
    { input_files := a.input_files ++ b.input_files }

/-- The listing environment of the cross witness: two repos with two
top-level entries each. -/
def listingC5 : Listing := fun u =>
  if u = "gs://b/cats/" then Except.ok ["gs://b/cats/c1", "gs://b/cats/c2"]
  else if u = "gs://b/dogs/" then Except.ok ["gs://b/dogs/d1", "gs://b/dogs/d2"]
  else Except.error "listing error"

/-- The cats atom of the cross witness. -/
def atomCats : Input :=
  Input.atom "gs://b/cats/" "cats" Glob.topLevelDirectoryEntries

/-- The dogs atom of the cross witness. -/
def atomDogs : Input :=
  Input.atom "gs://b/dogs/" "dogs" Glob.topLevelDirectoryEntries

/-- The planned datums of the cats atom. -/
def catsDatums : List DatumData :=
  [{ input_files := [{ uri := "gs://b/cats/c1", local_path := "/pfs/cats/c1" }] },
   { input_files := [{ uri := "gs://b/cats/c2", local_path := "/pfs/cats/c2" }] }]

/-- The planned datums of the dogs atom. -/
def dogsDatums : List DatumData :=
  [{ input_files := [{ uri := "gs://b/dogs/d1", local_path := "/pfs/dogs/d1" }] },
   { input_files := [{ uri := "gs://b/dogs/d2", local_path := "/pfs/dogs/d2" }] }]

/-! ## Generic helper lemmas about the list-based row store -/

/-- find? returns a row that is the unique one satisfying the predicate. -/
theorem find?_eq_some_of_unique {α : Type} (p : α → Bool) (l : List α) (a : α)
    (ha : a ∈ l) (hpa : p a = true) (huniq : ∀ x ∈ l, p x = true → x = a) :
    l.find? p = some a := by
  induction l with
  | nil => cases ha
  | cons b t ih =>
    by_cases hb : p b = true
    · have hba : b = a := huniq b (List.mem_cons_self b t) hb
      subst hba
      simp [List.find?_cons, hb]
    · have hbf : p b = false := Bool.eq_false_iff.mpr hb
      have hne : b ≠ a := fun h => hb (h ▸ hpa)
      have ha' : a ∈ t := by
        rcases List.mem_cons.mp ha with h | h
        · exact absurd h.symm hne
        · exact h
      rw [List.find?_cons, hbf]
      exact ih ha' fun x hx hpx => huniq x (List.mem_cons_of_mem _ hx) hpx

/-- A keyed UPDATE (apply f to the rows whose key is k) commutes with looking
the key k up, provided f preserves the key. -/
theorem find?_key_map_update {α : Type} (key : α → Nat) (f : α → α)
    (hf : ∀ a, key (f a) = key a) (k : Nat) (l : List α) :
    (l.map fun x => if key x = k then f x else x).find? (fun x => key x == k)
      = (l.find? fun x => key x == k).map f := by
  induction l with
  | nil => rfl
  | cons b t ih =>
    by_cases hb : key b = k
    · simp [List.find?_cons, hb, hf]
    · simp [List.find?_cons, hb, ih]

/-- A keyed UPDATE on key k' does not change the result of looking up a
different key k. -/
theorem find?_key_map_update_ne {α : Type} (key : α → Nat) (f : α → α)
    (hf : ∀ a, key (f a) = key a) (k k' : Nat) (hkk : k ≠ k') (l : List α) :
    (l.map fun x => if key x = k' then f x else x).find? (fun x => key x == k)
      = l.find? (fun x => key x == k) := by
  induction l with
  | nil => rfl
  | cons b t ih =>
    by_cases hb : key b = k'
    · have hbk : (key b == k) = false := by
        simp only [beq_eq_false_iff_ne]
        omega
      have hfk : (key (f b) == k) = false := by rw [hf]; exact hbk
      rw [List.map_cons, if_pos hb, List.find?_cons, hfk, List.find?_cons, hbk]
      exact ih
    · by_cases hbk : key b = k
      · rw [List.map_cons, if_neg hb, List.find?_cons, List.find?_cons,
          beq_iff_eq.mpr hbk]
      · have hbk' : (key b == k) = false := by
          simp only [beq_eq_false_iff_ne]
          exact hbk
        rw [List.map_cons, if_neg hb, List.find?_cons, hbk', List.find?_cons, hbk']
        exact ih

/-- In a table whose keys are distinct, looking up the key of a member row
returns that row. -/
theorem find?_key_of_nodup {α : Type} (key : α → Nat) (l : List α) (a : α)
    (hnd : (l.map key).Nodup) (ha : a ∈ l) :
    l.find? (fun x => key x == key a) = some a := by
  apply find?_eq_some_of_unique _ _ _ ha (by simp)
  intro x hx hk
  exact List.inj_on_of_nodup_map hnd hx ha (by simpa using hk)

/-- After a keyed UPDATE on the key of a member row of a distinct-key table,
a search for any row satisfying q finds the updated row, provided no row
satisfied q before the update and the updated row satisfies it. -/
theorem find?_map_update_of_not_found {α : Type} (key : α → Nat) (q : α → Bool)
    (f : α → α) (l : List α) (a : α)
    (hnd : (l.map key).Nodup) (ha : a ∈ l)
    (hq : ∀ x ∈ l, q x = false) (hqf : q (f a) = true) :
    (l.map fun x => if key x = key a then f x else x).find? q = some (f a) := by
  induction l with
  | nil => cases ha
  | cons b t ih =>
    simp only [List.map_cons, List.nodup_cons, List.mem_map] at hnd
    by_cases hb : key b = key a
    · have hba : b = a := by
        rcases List.mem_cons.mp ha with h | h
        · exact h.symm
        · exact absurd ⟨a, h, hb.symm⟩ hnd.1
      subst hba
      simp [List.find?_cons, hb, hqf]
    · have ha' : a ∈ t := by
        rcases List.mem_cons.mp ha with h | h
        · exact absurd (h ▸ rfl) hb
        · exact h
      have hqb : q b = false := hq b (List.mem_cons_self b t)
      simp only [List.map_cons, if_neg hb, List.find?_cons, hqb]
      exact ih hnd.2 ha' fun x hx => hq x (List.mem_cons_of_mem _ hx)

/-- An invariant preserved by every step of a foldlM over Except is preserved
by the whole fold. -/
theorem foldlM_except_inv {σ α : Type} (f : σ → α → Except String σ) (P : σ → Prop)
    (hstep : ∀ s a s', P s → f s a = Except.ok s' → P s') :
    ∀ (l : List α) (s s' : σ), P s → l.foldlM f s = Except.ok s' → P s' := by
  intro l
  induction l with
  | nil =>
    intro s s' hP h
    simp only [List.foldlM_nil] at h
    cases h
    exact hP
  | cons a t ih =>
    intro s s' hP h
    rw [List.foldlM_cons] at h
    cases hfa : f s a with
    | error e => rw [hfa] at h; exact Except.noConfusion h
    | ok s1 =>
      rw [hfa] at h
      exact ih s1 s' (hstep s a s1 hP hfa) h

/-! ## C1: idempotent reservation -/

theorem find_already_reserved_datum_eq (db : DB) (jobId : Nat) (pod_name : String) :
    Job.find_already_reserved_datum db jobId pod_name
      = db.datums.find? (reservedPred jobId pod_name) := rfl

/-- Claim C1: reservation is idempotent.  First, if some datum of job J is
already running on pod P (and it is the only such datum), then
reserve_next_datum returns that datum with its input files and writes
nothing.  Second, in a state with distinct datum ids and no datum of J
already running on pod P, if reserve_next_datum succeeds then the reserved
datum is a previously-ready datum whose attempted_run_count was incremented
by exactly one, and a second call with the same pod returns exactly the same
datum and input files and leaves the database untouched, so the counter is
incremented only once across both calls. -/
theorem reserve_next_datum_idempotent :
    (∀ (db : DB) (jobId : Nat) (node_name pod_name : String) (d : Datum),
      d ∈ db.datums → d.job_id = jobId → d.status = Status.running →
      d.pod_name = some pod_name →
      (∀ x ∈ db.datums, x.job_id = jobId → x.status = Status.running →
        x.pod_name = some pod_name → x = d) →
      Job.reserve_next_datum db jobId node_name pod_name
        = (some (d, db.inputFilesOf d.id), db))
    ∧
    (∀ (db : DB) (jobId : Nat) (node_name pod_name : String)
      (d1 : Datum) (fs1 : List InputFile) (db1 : DB),
      (db.datums.map Datum.id).Nodup →
      (∀ x ∈ db.datums,
        ¬(x.job_id = jobId ∧ x.status = Status.running ∧ x.pod_name = some pod_name)) →
      Job.reserve_next_datum db jobId node_name pod_name = (some (d1, fs1), db1) →
      ∃ d0 ∈ db.datums, d0.status = Status.ready ∧ d0.job_id = jobId ∧
        d1 = reserveUpdate node_name pod_name d0 ∧
        d1.attempted_run_count = d0.attempted_run_count + 1 ∧
        Job.reserve_next_datum db1 jobId node_name pod_name
          = (some (d1, fs1), db1)) := by
  constructor
  · intro db jobId node_name pod_name d hmem hjob hstat hpod huniq
    have hfound : Job.find_already_reserved_datum db jobId pod_name = some d := by
      rw [find_already_reserved_datum_eq]
      apply find?_eq_some_of_unique _ _ _ hmem
      · simp [reservedPred, hjob, hstat, hpod]
      · intro x hx hpx
        simp only [reservedPred, Bool.and_eq_true, beq_iff_eq] at hpx
        exact huniq x hx hpx.1.1 hpx.2 hpx.1.2
    rw [Job.reserve_next_datum, hfound]
  · intro db jobId node_name pod_name d1 fs1 db1 hnd hfresh h1
    have hnone : Job.find_already_reserved_datum db jobId pod_name = none := by
      rw [find_already_reserved_datum_eq]
      apply List.find?_eq_none.mpr
      intro x hx hpx
      simp only [reservedPred, Bool.and_eq_true, beq_iff_eq] at hpx
      exact hfresh x hx ⟨hpx.1.1, hpx.2, hpx.1.2⟩
    rw [Job.reserve_next_datum, hnone] at h1
    rw [Job.actually_reserve_next_datum] at h1
    cases hsel : db.datums.find?
        (fun d => d.job_id == jobId && d.status == Status.ready) with
    | none =>
      rw [hsel] at h1
      exact absurd (congrArg Prod.fst h1) (by simp)
    | some d0 =>
      rw [hsel] at h1
      simp only [Prod.mk.injEq, Option.some.injEq] at h1
      obtain ⟨⟨hd1, hfs1⟩, hdb1⟩ := h1
      have hmem0 : d0 ∈ db.datums := List.mem_of_find?_eq_some hsel
      have hp0 := List.find?_some hsel
      simp only [Bool.and_eq_true, beq_iff_eq] at hp0
      obtain ⟨hjob0, hstat0⟩ := hp0
      have hq : ∀ x ∈ db.datums, reservedPred jobId pod_name x = false := by
        intro x hx
        cases hpx : reservedPred jobId pod_name x with
        | false => rfl
        | true =>
          simp only [reservedPred, Bool.and_eq_true, beq_iff_eq] at hpx
          exact absurd ⟨hpx.1.1, hpx.2, hpx.1.2⟩ (hfresh x hx)
      have hqf : reservedPred jobId pod_name
          (reserveUpdate node_name pod_name d0) = true := by
        simp [reservedPred, reserveUpdate, hjob0]
      have hfind2 := find?_map_update_of_not_found Datum.id
        (reservedPred jobId pod_name) (reserveUpdate node_name pod_name)
        db.datums d0 hnd hmem0 hq hqf
      subst hd1
      subst hdb1
      subst hfs1
      have hfound2 : Job.find_already_reserved_datum
          (db.updateDatumRow d0.id (reserveUpdate node_name pod_name))
          jobId pod_name = some (reserveUpdate node_name pod_name d0) := by
        rw [find_already_reserved_datum_eq]
        exact hfind2
      exact ⟨d0, hmem0, hstat0, hjob0, rfl, rfl,
        by simp only [Job.reserve_next_datum, hfound2]⟩

/-- Witness for C1: in the concrete database dbC1, a first reservation by pod
p hands out the ready datum with its counter bumped to 1, and the theorem
yields that a second identical call returns the same datum and writes
nothing. -/
theorem reserve_next_datum_idempotent_witness :
    ∃ d0 ∈ dbC1.datums, d0.status = Status.ready ∧ d0.job_id = 1 ∧
      reserveUpdate "n" "p" dC1 = reserveUpdate "n" "p" d0 ∧
      (reserveUpdate "n" "p" dC1).attempted_run_count = d0.attempted_run_count + 1 ∧
      Job.reserve_next_datum (dbC1.updateDatumRow 10 (reserveUpdate "n" "p")) 1 "n" "p"
        = (some (reserveUpdate "n" "p" dC1, [fC1]),
           dbC1.updateDatumRow 10 (reserveUpdate "n" "p")) :=
  reserve_next_datum_idempotent.2 dbC1 1 "n" "p" (reserveUpdate "n" "p" dC1) [fC1]
    (dbC1.updateDatumRow 10 (reserveUpdate "n" "p"))
    (by decide) (by decide) (by decide)

/-! ## C2: job completion decision -/

/-- Folding a function over a filtered list is folding over the full list
when the dropped elements have no effect. -/
theorem foldl_filter_id {α σ : Type} (f : σ → α → σ) (p : α → Bool) (l : List α)
    (h : ∀ x ∈ l, p x = false → ∀ acc, f acc x = acc) :
    ∀ acc, (l.filter p).foldl f acc = l.foldl f acc := by
  induction l with
  | nil => intro acc; rfl
  | cons b t ih =>
    intro acc
    have ht := ih fun x hx => h x (List.mem_cons_of_mem _ hx)
    cases hb : p b with
    | true => rw [List.filter_cons_of_pos hb, List.foldl_cons, List.foldl_cons, ht]
    | false =>
      rw [List.filter_cons_of_neg (by simp [hb]), List.foldl_cons, ht,
        h b (List.mem_cons_self b t) hb acc]

/-- A count splits along any second Boolean predicate. -/
theorem countP_split {α : Type} (p q : α → Bool) (l : List α) :
    l.countP p
      = l.countP (fun a => p a && q a) + l.countP (fun a => p a && !q a) := by
  induction l with
  | nil => rfl
  | cons b t ih =>
    cases hp : p b <;> cases hq : q b <;>
      simp [List.countP_cons, hp, hq, ih] <;> omega

/-- The classification loop of Job::update_status_if_done computes exactly
the four direct counts over the given datums. -/
theorem tally_eq_list (l : List Datum) :
    (([Status.ready, Status.running, Status.done, Status.error,
        Status.canceled].map (groupCount l)).filter
          (fun sc => decide (0 < sc.count))).foldl tallyStep ⟨0, 0, 0, 0⟩
      = { unfinished := unfinishedCount l
          successful := successfulCount l
          failed := failedCount l
          rerunable := rerunableCount l } := by
  rw [foldl_filter_id]
  · simp only [List.map_cons, List.map_nil, List.foldl_cons, List.foldl_nil,
      tallyStep, groupCount]
    have herr : l.countP (fun d => d.status == Status.error &&
          d.status == Status.error &&
            decide (d.attempted_run_count < d.maximum_allowed_run_count))
        = rerunableCount l := by
      rw [rerunableCount]
      apply List.countP_congr
      intro d _
      cases hst : d.status <;> simp [hst]
    have hsub : l.countP (fun d => d.status == Status.error)
          - rerunableCount l
        = l.countP fun d => d.status == Status.error &&
            decide (d.maximum_allowed_run_count ≤ d.attempted_run_count) := by
      rw [countP_split (fun d => d.status == Status.error)
        (fun d => decide (d.attempted_run_count < d.maximum_allowed_run_count)) l]
      have hneg : (l.countP fun d => d.status == Status.error &&
            !decide (d.attempted_run_count < d.maximum_allowed_run_count))
          = l.countP fun d => d.status == Status.error &&
              decide (d.maximum_allowed_run_count ≤ d.attempted_run_count) := by
        apply List.countP_congr
        intro d _
        cases hst : d.status <;> simp [hst, Nat.not_lt]
      rw [hneg, rerunableCount]
      omega
    simp only [StatusTally.mk.injEq]
    refine ⟨?_, ?_, ?_, ?_⟩
    · rw [unfinishedCount,
        countP_split (fun d => d.status == Status.ready || d.status == Status.running)
          (fun d => d.status == Status.ready) l]
      have h1 : (l.countP fun d =>
            (d.status == Status.ready || d.status == Status.running) &&
              (d.status == Status.ready))
          = l.countP fun d => d.status == Status.ready := by
        apply List.countP_congr
        intro d _
        cases hst : d.status <;> simp [hst]
      have h2 : (l.countP fun d =>
            (d.status == Status.ready || d.status == Status.running) &&
              !(d.status == Status.ready))
          = l.countP fun d => d.status == Status.running := by
        apply List.countP_congr
        intro d _
        cases hst : d.status <;> simp [hst]
      rw [h1, h2]
      omega
    · rw [successfulCount]
      omega
    · rw [herr, hsub, failedCount]
      omega
    · rw [herr]
      omega
  · intro x hx hpx acc
    simp only [List.mem_map, List.mem_cons] at hx
    obtain ⟨s, _, hs⟩ := hx
    subst hs
    simp only [groupCount, decide_eq_false_iff_not, Nat.not_lt,
      Nat.le_zero] at hpx
    have hrr0 : (l.countP fun d => d.status == s && d.status == Status.error &&
          decide (d.attempted_run_count < d.maximum_allowed_run_count)) = 0 := by
      have hmono : (l.countP fun d => d.status == s && d.status == Status.error &&
            decide (d.attempted_run_count < d.maximum_allowed_run_count))
          ≤ l.countP fun d => d.status == s := by
        apply List.countP_mono_left
        intro d _ hd
        simp only [Bool.and_eq_true] at hd
        exact hd.1.1
      omega
    cases s <;> simp only [tallyStep, groupCount] <;> rw [hpx] <;>
      try rw [hrr0]
    all_goals simp

/-- Version of tally_eq_list phrased over Job::datum_status_counts. -/
theorem tally_eq (db : DB) (jobId : Nat) :
    (Job.datum_status_counts db jobId).foldl tallyStep ⟨0, 0, 0, 0⟩
      = { unfinished := unfinishedCount (db.jobDatums jobId)
          successful := successfulCount (db.jobDatums jobId)
          failed := failedCount (db.jobDatums jobId)
          rerunable := rerunableCount (db.jobDatums jobId) } := by
  rw [Job.datum_status_counts]
  exact tally_eq_list (db.jobDatums jobId)

/-- The decision of Job::update_status_if_done in terms of direct counts. -/
theorem updateStatusDecision_eq (db : DB) (jobId : Nat) :
    updateStatusDecision db jobId
      = if 0 < unfinishedCount (db.jobDatums jobId)
            || 0 < rerunableCount (db.jobDatums jobId) then none
        else if 0 < failedCount (db.jobDatums jobId) then some Status.error
        else some Status.done := by
  rw [updateStatusDecision, tally_eq]

/-- Looking up a job after a keyed job UPDATE. -/
theorem DB.findJob_updateJobRow (db : DB) (k J : Nat) (f : Job → Job)
    (hf : ∀ j, (f j).id = j.id) :
    (db.updateJobRow k f).findJob J
      = if J = k then (db.findJob J).map f else db.findJob J := by
  by_cases h : J = k
  · subst h
    rw [if_pos rfl]
    exact find?_key_map_update Job.id f hf J db.jobs
  · rw [if_neg h]
    exact find?_key_map_update_ne Job.id f hf J k h db.jobs

/-- Looking up a datum after a keyed datum UPDATE. -/
theorem DB.findDatum_updateDatumRow (db : DB) (k J : Nat) (f : Datum → Datum)
    (hf : ∀ d, (f d).id = d.id) :
    (db.updateDatumRow k f).findDatum J
      = if J = k then (db.findDatum J).map f else db.findDatum J := by
  by_cases h : J = k
  · subst h
    rw [if_pos rfl]
    exact find?_key_map_update Datum.id f hf J db.datums
  · rw [if_neg h]
    exact find?_key_map_update_ne Datum.id f hf J k h db.datums

/-- Job::update_status_if_done on a job that is no longer running returns
without writing. -/
theorem update_status_if_done_not_running (db : DB) (jobId : Nat) (job : Job)
    (hfind : db.findJob jobId = some job) (hst : job.status ≠ Status.running) :
    Job.update_status_if_done db jobId = Except.ok db := by
  simp [Job.update_status_if_done, hfind, hst]

/-- Job::update_status_if_done on a running job applies the classification
decision. -/
theorem update_status_if_done_running (db : DB) (jobId : Nat) (job : Job)
    (hfind : db.findJob jobId = some job) (hst : job.status = Status.running) :
    Job.update_status_if_done db jobId
      = Except.ok (match updateStatusDecision db jobId with
          | none => db
          | some s => db.updateJobRow jobId fun j => { j with status := s }) := by
  simp only [Job.update_status_if_done, hfind, hst]
  rw [if_neg (by simp)]
  cases h : updateStatusDecision db jobId <;> simp [h]

/-- All three non-successful counts vanish exactly when every datum is done. -/
theorem counts_all_done_iff (l : List Datum) :
    (unfinishedCount l = 0 ∧ rerunableCount l = 0 ∧ failedCount l = 0)
      ↔ ∀ d ∈ l, d.status = Status.done := by
  constructor
  · rintro ⟨h1, h2, h3⟩ d hd
    rw [unfinishedCount, List.countP_eq_zero] at h1
    rw [rerunableCount, List.countP_eq_zero] at h2
    rw [failedCount, Nat.add_eq_zero] at h3
    obtain ⟨h3a, h3b⟩ := h3
    rw [List.countP_eq_zero] at h3a h3b
    cases hst : d.status with
    | ready => exact absurd (by simp [hst]) (h1 d hd)
    | running => exact absurd (by simp [hst]) (h1 d hd)
    | done => rfl
    | error =>
      by_cases hlt : d.attempted_run_count < d.maximum_allowed_run_count
      · exact absurd (by simp [hst, hlt]) (h2 d hd)
      · exact absurd (by simp [hst]; omega) (h3a d hd)
    | canceled => exact absurd (by simp [hst]) (h3b d hd)
  · intro h
    refine ⟨?_, ?_, ?_⟩
    · rw [unfinishedCount, List.countP_eq_zero]
      intro d hd
      simp [h d hd]
    · rw [rerunableCount, List.countP_eq_zero]
      intro d hd
      simp [h d hd]
    · rw [failedCount, Nat.add_eq_zero]
      constructor <;> rw [List.countP_eq_zero] <;> intro d hd <;> simp [h d hd]

/-- Characterization of the error decision: no count of pending or retryable
work, and at least one datum failed for good (or was canceled). -/
theorem counts_error_iff (l : List Datum) :
    (unfinishedCount l = 0 ∧ rerunableCount l = 0 ∧ 0 < failedCount l)
      ↔ ((∃ d ∈ l, d.status ≠ Status.done) ∧
          ∀ d ∈ l, d.status ≠ Status.done →
            (d.status = Status.error ∧
              d.maximum_allowed_run_count ≤ d.attempted_run_count)
            ∨ d.status = Status.canceled) := by
  constructor
  · rintro ⟨h1, h2, h3⟩
    rw [unfinishedCount, List.countP_eq_zero] at h1
    rw [rerunableCount, List.countP_eq_zero] at h2
    constructor
    · rw [failedCount] at h3
      rcases Nat.lt_of_lt_of_le h3 (Nat.le_refl _) |>.lt_or_lt 0 with h | h
      · omega
      · have : 0 < (l.countP fun d => d.status == Status.error &&
              decide (d.maximum_allowed_run_count ≤ d.attempted_run_count))
            ∨ 0 < l.countP fun d => d.status == Status.canceled := by omega
        rcases this with h | h
        · obtain ⟨d, hd, hpd⟩ := List.countP_pos_iff.mp h
          simp only [Bool.and_eq_true, beq_iff_eq] at hpd
          exact ⟨d, hd, by simp [hpd.1]⟩
        · obtain ⟨d, hd, hpd⟩ := List.countP_pos_iff.mp h
          simp only [beq_iff_eq] at hpd
          exact ⟨d, hd, by simp [hpd]⟩
    · intro d hd hnd
      cases hst : d.status with
      | ready => exact absurd (by simp [hst]) (h1 d hd)
      | running => exact absurd (by simp [hst]) (h1 d hd)
      | done => exact absurd hst hnd
      | error =>
        by_cases hlt : d.attempted_run_count < d.maximum_allowed_run_count
        · exact absurd (by simp [hst, hlt]) (h2 d hd)
        · exact Or.inl ⟨rfl, by omega⟩
      | canceled => exact Or.inr rfl
  · rintro ⟨⟨d0, hd0, hnd0⟩, hall⟩
    refine ⟨?_, ?_, ?_⟩
    · rw [unfinishedCount, List.countP_eq_zero]
      intro d hd
      cases hst : d.status <;> simp [hst]
      · rcases hall d hd (by simp [hst]) with ⟨he, _⟩ | hc
        · exact Status.noConfusion (hst ▸ he)
        · exact Status.noConfusion (hst ▸ hc)
      · rcases hall d hd (by simp [hst]) with ⟨he, _⟩ | hc
        · exact Status.noConfusion (hst ▸ he)
        · exact Status.noConfusion (hst ▸ hc)
    · rw [rerunableCount, List.countP_eq_zero]
      intro d hd
      cases hst : d.status <;> simp [hst]
      rcases hall d hd (by simp [hst]) with ⟨_, hle⟩ | hc
      · omega
      · exact Status.noConfusion (hst ▸ hc)
    · rw [failedCount]
      rcases hall d0 hd0 hnd0 with ⟨he, hle⟩ | hc
      · have : 0 < l.countP fun d => d.status == Status.error &&
            decide (d.maximum_allowed_run_count ≤ d.attempted_run_count) :=
          List.countP_pos_iff.mpr ⟨d0, hd0, by simp [he, hle]⟩
        omega
      · have : 0 < l.countP fun d => d.status == Status.canceled :=
          List.countP_pos_iff.mpr ⟨d0, hd0, by simp [hc]⟩
        omega

/-- Claim C2: for a running job, update_status_if_done counts
unfinished (ready or running), rerunable (error with retries left),
failed (error with retries exhausted, plus canceled) and successful (done)
datums; it leaves the status untouched while unfinished or rerunable work
remains, otherwise writes error when anything failed and done when nothing
did.  Consequently the job is set to done iff every datum is done, and set
to error iff some datum is not done and every non-done datum is either an
exhausted error or canceled. -/
theorem update_status_if_done_correct
    (db : DB) (jobId : Nat) (job : Job)
    (hfind : db.findJob jobId = some job) (hrun : job.status = Status.running) :
    ∃ db', Job.update_status_if_done db jobId = Except.ok db' ∧
      ((0 < unfinishedCount (db.jobDatums jobId)
          ∨ 0 < rerunableCount (db.jobDatums jobId)) → db' = db) ∧
      (unfinishedCount (db.jobDatums jobId) = 0 →
        rerunableCount (db.jobDatums jobId) = 0 →
        0 < failedCount (db.jobDatums jobId) →
        db'.jobStatus jobId = some Status.error) ∧
      (unfinishedCount (db.jobDatums jobId) = 0 →
        rerunableCount (db.jobDatums jobId) = 0 →
        failedCount (db.jobDatums jobId) = 0 →
        db'.jobStatus jobId = some Status.done) ∧
      (db'.jobStatus jobId = some Status.done ↔
        ∀ d ∈ db.jobDatums jobId, d.status = Status.done) ∧
      (db'.jobStatus jobId = some Status.error ↔
        ((∃ d ∈ db.jobDatums jobId, d.status ≠ Status.done) ∧
          ∀ d ∈ db.jobDatums jobId, d.status ≠ Status.done →
            (d.status = Status.error ∧
              d.maximum_allowed_run_count ≤ d.attempted_run_count)
            ∨ d.status = Status.canceled)) := by
  have heq := update_status_if_done_running db jobId job hfind hrun
  by_cases hu : 0 < unfinishedCount (db.jobDatums jobId)
      ∨ 0 < rerunableCount (db.jobDatums jobId)
  · have hdec : updateStatusDecision db jobId = none := by
      rw [updateStatusDecision_eq]
      rcases hu with h | h <;> simp [h]
    have hjs : db.jobStatus jobId = some Status.running := by
      simp [DB.jobStatus, hfind, hrun]
    refine ⟨db, by rw [heq, hdec], fun _ => rfl, ?_, ?_, ?_, ?_⟩
    · intro h1 h2 _
      rcases hu with h | h <;> omega
    · intro h1 h2 _
      rcases hu with h | h <;> omega
    · constructor
      · intro h
        rw [hjs] at h
        exact absurd (Option.some.inj h) (by decide)
      · intro hall
        have h0 := (counts_all_done_iff (db.jobDatums jobId)).mpr hall
        rcases hu with h | h <;> omega
    · constructor
      · intro h
        rw [hjs] at h
        exact absurd (Option.some.inj h) (by decide)
      · intro hr
        have h0 := (counts_error_iff (db.jobDatums jobId)).mpr hr
        rcases hu with h | h <;> omega
  · have hu0 : unfinishedCount (db.jobDatums jobId) = 0
        ∧ rerunableCount (db.jobDatums jobId) = 0 := by
      push_neg at hu
      omega
    by_cases hf : 0 < failedCount (db.jobDatums jobId)
    · have hdec : updateStatusDecision db jobId = some Status.error := by
        rw [updateStatusDecision_eq]
        simp [hu0.1, hu0.2, hf]
      have hjs' : (db.updateJobRow jobId fun j =>
          { j with status := Status.error }).jobStatus jobId
            = some Status.error := by
        rw [DB.jobStatus,
          DB.findJob_updateJobRow db jobId jobId
            (fun j => { j with status := Status.error }) (fun j => rfl),
          if_pos rfl, hfind]
        rfl
      refine ⟨db.updateJobRow jobId fun j => { j with status := Status.error },
        by rw [heq, hdec], ?_, fun _ _ _ => hjs', ?_, ?_, ?_⟩
      · intro h
        exact absurd h hu
      · intro _ _ h
        omega
      · constructor
        · intro h
          rw [hjs'] at h
          exact absurd (Option.some.inj h) (by decide)
        · intro hall
          have h0 := (counts_all_done_iff (db.jobDatums jobId)).mpr hall
          omega
      · exact iff_of_true hjs'
          ((counts_error_iff (db.jobDatums jobId)).mp ⟨hu0.1, hu0.2, hf⟩)
    · have hf0 : failedCount (db.jobDatums jobId) = 0 := by omega
      have hdec : updateStatusDecision db jobId = some Status.done := by
        rw [updateStatusDecision_eq]
        simp [hu0.1, hu0.2, hf0]
      have hjs' : (db.updateJobRow jobId fun j =>
          { j with status := Status.done }).jobStatus jobId
            = some Status.done := by
        rw [DB.jobStatus,
          DB.findJob_updateJobRow db jobId jobId
            (fun j => { j with status := Status.done }) (fun j => rfl),
          if_pos rfl, hfind]
        rfl
      refine ⟨db.updateJobRow jobId fun j => { j with status := Status.done },
        by rw [heq, hdec], ?_, ?_, fun _ _ _ => hjs', ?_, ?_⟩
      · intro h
        exact absurd h hu
      · intro _ _ h
        omega
      · exact iff_of_true hjs'
          ((counts_all_done_iff (db.jobDatums jobId)).mp ⟨hu0.1, hu0.2, hf0⟩)
      · constructor
        · intro h
          rw [hjs'] at h
          exact absurd (Option.some.inj h) (by decide)
        · intro hr
          have h0 := (counts_error_iff (db.jobDatums jobId)).mpr hr
          omega

/-- Witness for C2: with a single done datum, update_status_if_done marks job
2 as done, as characterized by the claim theorem. -/
theorem update_status_if_done_correct_witness :
    ∃ db', Job.update_status_if_done dbC2 2 = Except.ok db' ∧
      ((0 < unfinishedCount (dbC2.jobDatums 2)
          ∨ 0 < rerunableCount (dbC2.jobDatums 2)) → db' = dbC2) ∧
      (unfinishedCount (dbC2.jobDatums 2) = 0 →
        rerunableCount (dbC2.jobDatums 2) = 0 →
        0 < failedCount (dbC2.jobDatums 2) →
        db'.jobStatus 2 = some Status.error) ∧
      (unfinishedCount (dbC2.jobDatums 2) = 0 →
        rerunableCount (dbC2.jobDatums 2) = 0 →
        failedCount (dbC2.jobDatums 2) = 0 →
        db'.jobStatus 2 = some Status.done) ∧
      (db'.jobStatus 2 = some Status.done ↔
        ∀ d ∈ dbC2.jobDatums 2, d.status = Status.done) ∧
      (db'.jobStatus 2 = some Status.error ↔
        ((∃ d ∈ dbC2.jobDatums 2, d.status ≠ Status.done) ∧
          ∀ d ∈ dbC2.jobDatums 2, d.status ≠ Status.done →
            (d.status = Status.error ∧
              d.maximum_allowed_run_count ≤ d.attempted_run_count)
            ∨ d.status = Status.canceled)) :=
  update_status_if_done_correct dbC2 2 jobC2 (by decide) (by decide)

/-! ## C4: terminal job status is immutable -/

/-- Reading a job's status out of a successful jobStatus lookup. -/
theorem jobStatus_elim (db : DB) (J : Nat) (s : Status)
    (hjs : db.jobStatus J = some s) :
    ∃ job, db.findJob J = some job ∧ job.status = s := by
  rw [DB.jobStatus] at hjs
  cases hf : db.findJob J with
  | none => rw [hf] at hjs; exact absurd hjs (by simp)
  | some j =>
    rw [hf] at hjs
    exact ⟨j, rfl, by simpa using hjs⟩

/-- Datum row updates do not touch the jobs table. -/
theorem jobStatus_updateDatumRow (db : DB) (k : Nat) (f : Datum → Datum)
    (J : Nat) : (db.updateDatumRow k f).jobStatus J = db.jobStatus J := rfl

/-- Output file deletion does not touch the jobs table. -/
theorem jobStatus_delete_for_datum (db : DB) (k J : Nat) :
    (OutputFile.delete_for_datum db k).jobStatus J = db.jobStatus J := rfl

/-- update_status_if_done, called on any job, preserves the recorded status
of a job that is already terminal. -/
theorem usid_preserves_terminal (db : DB) (J : Nat) (s : Status)
    (hjs : db.jobStatus J = some s) (hterm : s.has_finished = true)
    (J' : Nat) (db' : DB)
    (h : Job.update_status_if_done db J' = Except.ok db') :
    db'.jobStatus J = some s := by
  obtain ⟨job, hfind, hjstat⟩ := jobStatus_elim db J s hjs
  cases hfind' : db.findJob J' with
  | none =>
    rw [Job.update_status_if_done, hfind'] at h
    exact Except.noConfusion h
  | some job' =>
    by_cases hr : job'.status = Status.running
    · have hJne : J ≠ J' := by
        intro hEq
        subst hEq
        rw [hfind] at hfind'
        cases hfind'
        rw [hjstat] at hr
        subst hr
        exact Bool.noConfusion hterm
      rw [update_status_if_done_running db J' job' hfind' hr] at h
      cases hdec : updateStatusDecision db J' with
      | none =>
        rw [hdec] at h
        cases h
        exact hjs
      | some st =>
        rw [hdec] at h
        cases h
        rw [DB.jobStatus,
          DB.findJob_updateJobRow db J' J
            (fun j => { j with status := st }) (fun j => rfl),
          if_neg hJne, hfind]
        simp [hjstat]
    · rw [update_status_if_done_not_running db J' job' hfind' hr] at h
      cases h
      exact hjs

/-- The datum patch handler preserves the recorded status of a job that is
already terminal. -/
theorem patch_datum_preserves_terminal (db : DB) (J : Nat) (s : Status)
    (hjs : db.jobStatus J = some s) (hterm : s.has_finished = true)
    (datumId : Nat) (p : DatumPatch) (d' : Datum) (db' : DB)
    (h : patch_datum db datumId p = Except.ok (d', db')) :
    db'.jobStatus J = some s := by
  rw [patch_datum] at h
  cases hfd : db.findDatum datumId with
  | none =>
    rw [hfd] at h
    exact Except.noConfusion h
  | some datum =>
    rw [hfd] at h
    obtain ⟨ps, po, pe, pb⟩ := p
    have husid : ∀ (dbx : DB) (dx : Datum) (dbr : DB),
        dbx.jobStatus J = some s →
        Datum.update_job_status_if_done dbx dx = Except.ok dbr →
        dbr.jobStatus J = some s := by
      intro dbx dx dbr hx hupd
      rw [Datum.update_job_status_if_done] at hupd
      cases hfj : dbx.findJob dx.job_id with
      | none => rw [hfj] at hupd; exact Except.noConfusion hupd
      | some jx =>
        rw [hfj] at hupd
        exact usid_preserves_terminal dbx J s hx hterm dx.job_id dbr hupd
    cases ps <;> cases pe <;> cases pb <;>
      simp only at h <;>
      try exact Except.noConfusion h
    · -- status done, no error_message, no backtrace
      cases hupd : Datum.update_job_status_if_done
          (db.updateDatumRow datumId (Datum.markDoneRow po))
          (Datum.markDoneRow po datum) with
      | error e =>
        rw [hupd] at h
        exact Except.noConfusion h
      | ok dbr =>
        rw [hupd] at h
        cases h
        exact husid _ _ _ (by rw [jobStatus_updateDatumRow]; exact hjs) hupd
    · -- status error, with error_message and backtrace
      rename_i em bt
      cases hupd : Datum.update_job_status_if_done
          (db.updateDatumRow datumId (Datum.markErrorRow po em bt))
          (Datum.markErrorRow po em bt datum) with
      | error e =>
        rw [hupd] at h
        exact Except.noConfusion h
      | ok dbr =>
        rw [hupd] at h
        cases h
        exact husid _ _ _ (by rw [jobStatus_updateDatumRow]; exact hjs) hupd

/-- The vanished-job babysitter body preserves the recorded status of a job
that is already terminal, whichever job it is run for. -/
theorem vanished_job_check_preserves_terminal (db : DB) (J : Nat) (s : Status)
    (hjs : db.jobStatus J = some s) (hterm : s.has_finished = true)
    (J' : Nat) (names : List String) (cutoff : Nat) (db' : DB)
    (h : vanished_job_check db J' names cutoff = Except.ok db') :
    db'.jobStatus J = some s := by
  rw [vanished_job_check] at h
  split at h
  · exact Except.noConfusion h
  · split at h
    · exact Except.noConfusion h
    · rename_i dbu husid
      have hjsu : dbu.jobStatus J = some s :=
        usid_preserves_terminal db J s hjs hterm J' dbu husid
      split at h
      · exact Except.noConfusion h
      · rename_i job2 hfind2
        split at h
        · rename_i hcond
          cases h
          have hJne : J ≠ J' := by
            intro hEq
            subst hEq
            obtain ⟨jobu, hfu, hsu⟩ := jobStatus_elim dbu J s hjsu
            rw [hfu] at hfind2
            cases hfind2
            simp only [Bool.and_eq_true, beq_iff_eq] at hcond
            rw [hsu] at hcond
            rw [hcond.1.1] at hterm
            exact Bool.noConfusion hterm
          rw [Job.mark_as_error, DB.jobStatus,
            DB.findJob_updateJobRow dbu J' J
              (fun j => { j with status := Status.error }) (fun j => rfl),
            if_neg hJne]
          exact hjsu
        · cases h
          exact hjsu

/-- The vanished-job babysitter body run on a terminal job itself changes
nothing at all. -/
theorem vanished_job_check_terminal_noop (db : DB) (J : Nat) (s : Status)
    (hjs : db.jobStatus J = some s) (hterm : s.has_finished = true)
    (names : List String) (cutoff : Nat) :
    vanished_job_check db J names cutoff = Except.ok db := by
  obtain ⟨job, hfind, hjstat⟩ := jobStatus_elim db J s hjs
  have hnr : job.status ≠ Status.running := by
    intro hEq
    rw [hEq] at hjstat
    rw [← hjstat] at hterm
    exact Bool.noConfusion hterm
  rw [vanished_job_check]
  simp only [hfind, update_status_if_done_not_running db J job hfind hnr]
  rw [if_neg (by simp [hnr])]

/-- The zombie-datum babysitter body preserves the recorded status of a job
that is already terminal. -/
theorem zombie_datum_check_preserves_terminal (db : DB) (J : Nat) (s : Status)
    (hjs : db.jobStatus J = some s) (hterm : s.has_finished = true)
    (datumId : Nat) (db' : DB)
    (h : zombie_datum_check db datumId = Except.ok db') :
    db'.jobStatus J = some s := by
  rw [zombie_datum_check] at h
  cases hfd : db.findDatum datumId with
  | none => rw [hfd] at h; exact Except.noConfusion h
  | some z =>
    rw [hfd] at h
    simp only at h
    set dbx := if z.status == Status.running then
        db.updateDatumRow datumId
          (Datum.markErrorRow "(did not capture output)"
            "worker pod disappeared while working on datum"
            "(no backtrace available)")
      else db with hdbx
    have hx : dbx.jobStatus J = some s := by
      rw [hdbx]
      by_cases hz : (z.status == Status.running) = true
      · rw [if_pos hz, jobStatus_updateDatumRow]
        exact hjs
      · rw [if_neg hz]
        exact hjs
    rw [Datum.update_job_status_if_done] at h
    cases hfj : dbx.findJob z.job_id with
    | none => rw [hfj] at h; exact Except.noConfusion h
    | some jx =>
      rw [hfj] at h
      exact usid_preserves_terminal dbx J s hx hterm z.job_id db' h

/-- The rerun babysitter body touches only datums and output files, so the
jobs table is unchanged. -/
theorem rerun_one_jobs (db : DB) (datumId : Nat) (db' : DB)
    (h : rerun_one db datumId = Except.ok db') : db'.jobs = db.jobs := by
  rw [rerun_one] at h
  cases hfd : db.findDatum datumId with
  | none => rw [hfd] at h; exact Except.noConfusion h
  | some d =>
    rw [hfd] at h
    simp only at h
    cases h
    by_cases hrr : d.is_rerunable = true
    · rw [if_pos hrr]
      rfl
    · rw [if_neg hrr]
      rfl

/-- retry_job inserts a brand-new job and never rewrites an existing row, so
the recorded status of an existing job is preserved. -/
theorem retry_job_preserves_status (db : DB) (J : Nat) (s : Status)
    (hjs : db.jobStatus J = some s)
    (J' newJobId : Nat) (newJobName : String) (now : Nat)
    (newDatumIds : List Nat) (defaultMax : Nat) (r : Job) (db' : DB)
    (h : retry_job db J' newJobId newJobName now newDatumIds defaultMax
        = Except.ok (r, db')) :
    db'.jobStatus J = some s := by
  rw [retry_job] at h
  split at h
  · exact Except.noConfusion h
  · split at h
    · exact Except.noConfusion h
    · simp only [Except.ok.injEq, Prod.mk.injEq] at h
      obtain ⟨hr, hdb⟩ := h
      subst hdb
      obtain ⟨job, hfind, hjstat⟩ := jobStatus_elim db J s hjs
      rw [DB.findJob] at hfind
      rw [DB.jobStatus, DB.findJob]
      simp only [List.find?_append, hfind]
      simp [hjstat]

/-- A database with the same jobs table reports the same job statuses. -/
theorem jobStatus_congr (db db' : DB) (hjobs : db'.jobs = db.jobs) (J : Nat) :
    db'.jobStatus J = db.jobStatus J := by
  rw [DB.jobStatus, DB.jobStatus, DB.findJob, DB.findJob, hjobs]

/-- The whole finished-and-vanished-jobs pass preserves a terminal status. -/
theorem vanished_loop_preserves_terminal (db : DB) (J : Nat) (s : Status)
    (hjs : db.jobStatus J = some s) (hterm : s.has_finished = true)
    (names : List String) (cutoff : Nat) (db' : DB)
    (h : check_for_finished_and_vanished_jobs db names cutoff = Except.ok db') :
    db'.jobStatus J = some s := by
  rw [check_for_finished_and_vanished_jobs] at h
  exact foldlM_except_inv (fun acc j => vanished_job_check acc j.id names cutoff)
    (fun dbx => dbx.jobStatus J = some s)
    (fun acc j acc' hP hstep =>
      vanished_job_check_preserves_terminal acc J s hP hterm j.id names cutoff
        acc' hstep)
    (db.jobs.filter fun j => j.status == Status.running) db db' hjs h

/-- The whole zombie-datums pass preserves a terminal status. -/
theorem zombie_loop_preserves_terminal (db : DB) (J : Nat) (s : Status)
    (hjs : db.jobStatus J = some s) (hterm : s.has_finished = true)
    (pods : List String) (db' : DB)
    (h : check_for_zombie_datums db pods = Except.ok db') :
    db'.jobStatus J = some s := by
  rw [check_for_zombie_datums] at h
  exact foldlM_except_inv (fun acc z => zombie_datum_check acc z.id)
    (fun dbx => dbx.jobStatus J = some s)
    (fun acc z acc' hP hstep =>
      zombie_datum_check_preserves_terminal acc J s hP hterm z.id acc' hstep)
    (Datum.zombies db pods) db db' hjs h

/-- The whole rerunable-datums pass preserves every job's recorded status. -/
theorem rerun_loop_preserves_jobStatus (db : DB) (J : Nat) (os : Option Status)
    (hjs : db.jobStatus J = os) (db' : DB)
    (h : check_for_datums_which_can_be_rerun db = Except.ok db') :
    db'.jobStatus J = os := by
  rw [check_for_datums_which_can_be_rerun] at h
  exact foldlM_except_inv (fun acc d => rerun_one acc d.id)
    (fun dbx => dbx.jobStatus J = os)
    (fun acc d acc' hP hstep => by
      show acc'.jobStatus J = os
      rw [jobStatus_congr acc acc' (rerun_one_jobs acc d.id acc' hstep) J]
      exact hP)
    (Datum.rerunable db) db db' hjs h

/-- Claim C4: once a job's status is terminal (done, error or canceled), none
of the system's operations changes it again: the datum patch handler,
update_status_if_done on any job, every babysitter pass, and job retry all
preserve it.  In particular update_status_if_done returns without writing
when the locked job is not running, and the babysitter's vanished-job body
leaves a terminal job entirely unchanged. -/
theorem terminal_status_immutable (db : DB) (jobId : Nat) (s : Status)
    (hjs : db.jobStatus jobId = some s) (hterm : s.has_finished = true) :
    (∀ datumId p d' db', patch_datum db datumId p = Except.ok (d', db') →
      db'.jobStatus jobId = some s) ∧
    (∀ J' db', Job.update_status_if_done db J' = Except.ok db' →
      db'.jobStatus jobId = some s) ∧
    Job.update_status_if_done db jobId = Except.ok db ∧
    (∀ names cutoff, vanished_job_check db jobId names cutoff = Except.ok db) ∧
    (∀ names cutoff db',
      check_for_finished_and_vanished_jobs db names cutoff = Except.ok db' →
      db'.jobStatus jobId = some s) ∧
    (∀ pods db', check_for_zombie_datums db pods = Except.ok db' →
      db'.jobStatus jobId = some s) ∧
    (∀ db', check_for_datums_which_can_be_rerun db = Except.ok db' →
      db'.jobStatus jobId = some s) ∧
    (∀ J' newJobId newJobName now newDatumIds defaultMax r db',
      retry_job db J' newJobId newJobName now newDatumIds defaultMax
        = Except.ok (r, db') →
      db'.jobStatus jobId = some s) := by
  obtain ⟨job, hfind, hjstat⟩ := jobStatus_elim db jobId s hjs
  have hnr : job.status ≠ Status.running := by
    intro hEq
    rw [hEq] at hjstat
    rw [← hjstat] at hterm
    exact Bool.noConfusion hterm
  refine ⟨?_, ?_, ?_, ?_, ?_, ?_, ?_, ?_⟩
  · intro datumId p d' db' h
    exact patch_datum_preserves_terminal db jobId s hjs hterm datumId p d' db' h
  · intro J' db' h
    exact usid_preserves_terminal db jobId s hjs hterm J' db' h
  · exact update_status_if_done_not_running db jobId job hfind hnr
  · intro names cutoff
    exact vanished_job_check_terminal_noop db jobId s hjs hterm names cutoff
  · intro names cutoff db' h
    exact vanished_loop_preserves_terminal db jobId s hjs hterm names cutoff db' h
  · intro pods db' h
    exact zombie_loop_preserves_terminal db jobId s hjs hterm pods db' h
  · intro db' h
    exact rerun_loop_preserves_jobStatus db jobId (some s) hjs db' h
  · intro J' newJobId newJobName now newDatumIds defaultMax r db' h
    exact retry_job_preserves_status db jobId s hjs J' newJobId newJobName now
      newDatumIds defaultMax r db' h

/-- Witness for C4: every operation of the system leaves the done status of
job 4 in dbC4 untouched. -/
theorem terminal_status_immutable_witness :
    (∀ datumId p d' db', patch_datum dbC4 datumId p = Except.ok (d', db') →
      db'.jobStatus 4 = some Status.done) ∧
    (∀ J' db', Job.update_status_if_done dbC4 J' = Except.ok db' →
      db'.jobStatus 4 = some Status.done) ∧
    Job.update_status_if_done dbC4 4 = Except.ok dbC4 ∧
    (∀ names cutoff, vanished_job_check dbC4 4 names cutoff = Except.ok dbC4) ∧
    (∀ names cutoff db',
      check_for_finished_and_vanished_jobs dbC4 names cutoff = Except.ok db' →
      db'.jobStatus 4 = some Status.done) ∧
    (∀ pods db', check_for_zombie_datums dbC4 pods = Except.ok db' →
      db'.jobStatus 4 = some Status.done) ∧
    (∀ db', check_for_datums_which_can_be_rerun dbC4 = Except.ok db' →
      db'.jobStatus 4 = some Status.done) ∧
    (∀ J' newJobId newJobName now newDatumIds defaultMax r db',
      retry_job dbC4 J' newJobId newJobName now newDatumIds defaultMax
        = Except.ok (r, db') →
      db'.jobStatus 4 = some Status.done) :=
  terminal_status_immutable dbC4 4 Status.done (by decide) (by decide)

/-! ## C6, C7, C10: the babysitter's rerun pass -/

/-- Membership version of foldlM_except_inv: the invariant only needs to be
preserved for elements of the folded list. -/
theorem foldlM_except_inv_mem {σ α : Type} (f : σ → α → Except String σ)
    (P : σ → Prop) :
    ∀ (l : List α),
      (∀ s a, a ∈ l → ∀ s', P s → f s a = Except.ok s' → P s') →
      ∀ (s s' : σ), P s → l.foldlM f s = Except.ok s' → P s' := by
  intro l
  induction l with
  | nil =>
    intro _ s s' hP h
    simp only [List.foldlM_nil] at h
    cases h
    exact hP
  | cons a t ih =>
    intro hstep s s' hP h
    rw [List.foldlM_cons] at h
    cases hfa : f s a with
    | error e => rw [hfa] at h; exact Except.noConfusion h
    | ok s1 =>
      rw [hfa] at h
      exact ih (fun s a ha => hstep s a (List.mem_cons_of_mem _ ha)) s1 s'
        (hstep s a (List.mem_cons_self a t) s1 hP hfa) h

/-- Unpacking membership in the rerunable query result. -/
theorem mem_rerunable (db : DB) (x : Datum) (hx : x ∈ Datum.rerunable db) :
    x ∈ db.datums ∧ x.status = Status.error ∧
      x.attempted_run_count < x.maximum_allowed_run_count := by
  rw [Datum.rerunable] at hx
  have := List.mem_filter.mp hx
  refine ⟨this.1, ?_, ?_⟩ <;>
    · have hb := this.2
      simp only [Bool.and_eq_true, beq_iff_eq, decide_eq_true_eq] at hb
      first
        | exact hb.1.2
        | exact hb.2

/-- Deleting the output files of a datum does not touch the datums table. -/
theorem findDatum_delete_for_datum (db : DB) (k J : Nat) :
    (OutputFile.delete_for_datum db k).findDatum J = db.findDatum J := rfl

/-- After OutputFile::delete_for_datum, the datum has no output files. -/
theorem outputFilesOf_delete_for_datum (db : DB) (k : Nat) :
    (OutputFile.delete_for_datum db k).outputFilesOf k = [] := by
  rw [OutputFile.delete_for_datum, DB.outputFilesOf]
  apply List.filter_eq_nil_iff.mpr
  intro f hf
  have := (List.mem_filter.mp hf).2
  simp only [Bool.not_eq_eq_eq_not, Bool.not_true, beq_eq_false_iff_ne] at this
  simp [this]

/-- The rerun body leaves every other datum row untouched. -/
theorem rerun_one_findDatum_ne (db : DB) (datumId k : Nat) (hne : k ≠ datumId)
    (db' : DB) (h : rerun_one db datumId = Except.ok db') :
    db'.findDatum k = db.findDatum k := by
  rw [rerun_one] at h
  split at h
  · exact Except.noConfusion h
  · cases h
    rw [findDatum_delete_for_datum]
    split
    · rw [DB.findDatum_updateDatumRow db datumId k Datum.markEligibleRow
        (fun d => rfl), if_neg hne]
    · rfl

/-- Claim C6: a datum whose attempted_run_count has reached
maximum_allowed_run_count is excluded from the rerunable query, fails the
locked is_rerunable re-check, and its row survives the babysitter's whole
rerun pass unchanged; moreover, once a running job only has settled datums
left and one of them is such an exhausted error datum, update_status_if_done
terminates the job with status error. -/
theorem retry_cap_respected :
    (∀ (db : DB) (d : Datum), d ∈ db.datums →
      d.maximum_allowed_run_count ≤ d.attempted_run_count →
      d ∉ Datum.rerunable db) ∧
    (∀ d : Datum, d.maximum_allowed_run_count ≤ d.attempted_run_count →
      d.is_rerunable = false) ∧
    (∀ (db : DB) (d : Datum) (db' : DB),
      (db.datums.map Datum.id).Nodup → d ∈ db.datums →
      d.maximum_allowed_run_count ≤ d.attempted_run_count →
      check_for_datums_which_can_be_rerun db = Except.ok db' →
      db'.findDatum d.id = db.findDatum d.id) ∧
    (∀ (db : DB) (d : Datum) (job : Job),
      db.findJob d.job_id = some job → job.status = Status.running →
      d ∈ db.jobDatums d.job_id → d.status = Status.error →
      d.maximum_allowed_run_count ≤ d.attempted_run_count →
      (∀ x ∈ db.jobDatums d.job_id, x.status = Status.done
        ∨ x.status = Status.canceled
        ∨ (x.status = Status.error ∧
            x.maximum_allowed_run_count ≤ x.attempted_run_count)) →
      ∃ db', Job.update_status_if_done db d.job_id = Except.ok db' ∧
        db'.jobStatus d.job_id = some Status.error) := by
  have hnotrr : ∀ d : Datum,
      d.maximum_allowed_run_count ≤ d.attempted_run_count →
      d.is_rerunable = false := by
    intro d hle
    rw [Datum.is_rerunable]
    simp only [Bool.and_eq_false_iff, decide_eq_false_iff_not, Nat.not_lt]
    exact Or.inr hle
  refine ⟨?_, hnotrr, ?_, ?_⟩
  · intro db d _ hle hmem
    have := (mem_rerunable db d hmem).2.2
    omega
  · intro db d db' hnd hmem hle h
    rw [check_for_datums_which_can_be_rerun] at h
    refine foldlM_except_inv_mem (fun acc x => rerun_one acc x.id)
      (fun dbx => dbx.findDatum d.id = db.findDatum d.id)
      (Datum.rerunable db) ?_ db db' rfl h
    intro acc x hx acc' hP hstep
    obtain ⟨hxmem, _, hxlt⟩ := mem_rerunable db x hx
    have hne : d.id ≠ x.id := by
      intro hEq
      have hxd : x = d :=
        List.inj_on_of_nodup_map hnd hxmem hmem hEq.symm
      rw [hxd] at hxlt
      omega
    rw [rerun_one_findDatum_ne acc x.id d.id hne acc' hstep]
    exact hP
  · intro db d job hfj hrun hmem hstat hle hall
    have hu0 : unfinishedCount (db.jobDatums d.job_id) = 0 := by
      rw [unfinishedCount, List.countP_eq_zero]
      intro x hx
      rcases hall x hx with h | h | ⟨h, _⟩ <;> simp [h]
    have hr0 : rerunableCount (db.jobDatums d.job_id) = 0 := by
      rw [rerunableCount, List.countP_eq_zero]
      intro x hx
      rcases hall x hx with h | h | ⟨h, hxle⟩ <;> simp [h]
      omega
    have hfpos : 0 < failedCount (db.jobDatums d.job_id) := by
      rw [failedCount]
      have : 0 < (db.jobDatums d.job_id).countP fun x =>
          x.status == Status.error &&
            decide (x.maximum_allowed_run_count ≤ x.attempted_run_count) :=
        List.countP_pos_iff.mpr ⟨d, hmem, by simp [hstat, hle]⟩
      omega
    refine ⟨db.updateJobRow d.job_id fun j => { j with status := Status.error },
      ?_, ?_⟩
    · rw [update_status_if_done_running db d.job_id job hfj hrun,
        updateStatusDecision_eq]
      simp [hu0, hr0, hfpos]
    · rw [DB.jobStatus,
        DB.findJob_updateJobRow db d.job_id d.job_id
          (fun j => { j with status := Status.error }) (fun j => rfl),
        if_pos rfl, hfj]
      rfl

/-- Witness for C6: with its only datum an exhausted error,
update_status_if_done terminates job 6 with status error. -/
theorem retry_cap_respected_witness :
    ∃ db', Job.update_status_if_done dbC6 6 = Except.ok db' ∧
      db'.jobStatus 6 = some Status.error :=
  retry_cap_respected.2.2.2 dbC6 dC6 jobC6 (by decide) (by decide) (by decide)
    (by decide) (by decide) (by decide)

/-- Claim C7: when the babysitter requeues a datum from the rerunable list
whose locked row still matches the list entry, it sets the status back to
ready, leaves attempted_run_count unchanged, and afterwards the datum has
zero OutputFiles. -/
theorem rerun_requeue_postcondition (db : DB) (c : Datum)
    (hmem : c ∈ Datum.rerunable db) (hfd : db.findDatum c.id = some c) :
    ∃ db', rerun_one db c.id = Except.ok db' ∧
      db'.findDatum c.id = some (Datum.markEligibleRow c) ∧
      (Datum.markEligibleRow c).status = Status.ready ∧
      (Datum.markEligibleRow c).attempted_run_count = c.attempted_run_count ∧
      db'.outputFilesOf c.id = [] := by
  obtain ⟨_, hstat, hlt⟩ := mem_rerunable db c hmem
  have hrr : c.is_rerunable = true := by
    rw [Datum.is_rerunable]
    simp [hstat, hlt]
  refine ⟨OutputFile.delete_for_datum
      (db.updateDatumRow c.id Datum.markEligibleRow) c.id, ?_, ?_, rfl, rfl, ?_⟩
  · rw [rerun_one, hfd]
    simp [hrr]
  · rw [findDatum_delete_for_datum,
      DB.findDatum_updateDatumRow db c.id c.id Datum.markEligibleRow
        (fun d => rfl),
      if_pos rfl, hfd]
    rfl
  · exact outputFilesOf_delete_for_datum _ c.id

/-- Witness for C7: requeueing the eligible datum 70 yields status ready,
the same attempted_run_count, and zero OutputFiles. -/
theorem rerun_requeue_postcondition_witness :
    ∃ db', rerun_one dbC7 dC7.id = Except.ok db' ∧
      db'.findDatum dC7.id = some (Datum.markEligibleRow dC7) ∧
      (Datum.markEligibleRow dC7).status = Status.ready ∧
      (Datum.markEligibleRow dC7).attempted_run_count
        = dC7.attempted_run_count ∧
      db'.outputFilesOf dC7.id = [] :=
  rerun_requeue_postcondition dbC7 dC7 (by decide) (by decide)

/-- Claim C10: in the rerun body the OutputFile deletion is unconditional:
even when the locked re-check is_rerunable fails (for example the datum is
already running again), the body succeeds, deletes every OutputFile row of
the datum, and leaves the datums table untouched. -/
theorem rerun_deletes_output_files_unconditionally (db : DB) (datumId : Nat)
    (c : Datum) (hfd : db.findDatum datumId = some c)
    (hrr : c.is_rerunable = false) :
    rerun_one db datumId = Except.ok (OutputFile.delete_for_datum db datumId) ∧
    (OutputFile.delete_for_datum db datumId).outputFilesOf datumId = [] ∧
    (OutputFile.delete_for_datum db datumId).datums = db.datums := by
  refine ⟨?_, outputFilesOf_delete_for_datum db datumId, rfl⟩
  rw [rerun_one, hfd]
  simp [hrr]

/-- Witness for C10: the rerun body on the running datum 80 deletes its
OutputFile rows while leaving its status untouched. -/
theorem rerun_deletes_output_files_unconditionally_witness :
    rerun_one dbC10 80 = Except.ok (OutputFile.delete_for_datum dbC10 80) ∧
    (OutputFile.delete_for_datum dbC10 80).outputFilesOf 80 = [] ∧
    (OutputFile.delete_for_datum dbC10 80).datums = dbC10.datums :=
  rerun_deletes_output_files_unconditionally dbC10 80 dC10 (by decide)
    (by decide)

/-! ## C8: the datum patch handler has no running-status precondition -/

/-- update_status_if_done always succeeds when the job row exists. -/
theorem usid_ok_of_found (db : DB) (J : Nat) (job : Job)
    (hfind : db.findJob J = some job) :
    ∃ db', Job.update_status_if_done db J = Except.ok db' := by
  by_cases hr : job.status = Status.running
  · rw [update_status_if_done_running db J job hfind hr]
    cases updateStatusDecision db J <;> exact ⟨_, rfl⟩
  · rw [update_status_if_done_not_running db J job hfind hr]
    exact ⟨db, rfl⟩

/-- Counterexample to C8: datum 30 of dbC8 is in status error, not running,
yet the patch handler accepts the done patch and overwrites the status to
done, instead of rejecting the request and leaving the datum unchanged. -/
theorem patch_datum_overwrites_cex :
    (dbC8.findDatum 30).map Datum.status = some Status.error ∧
    (patch_datum dbC8 30 patchC8).toOption.map (fun r => r.1.status)
      = some Status.done := by decide

/-- Amended C8: the patch handler checks only the shape of the patch, never
the datum's current status: a done patch with no error fields always
succeeds and overwrites the status with done, whatever the previous status
was, while a done patch carrying error fields is rejected without touching
the database. -/
theorem patch_datum_done_semantics (db : DB) (datumId : Nat) (d : Datum)
    (job : Job) (output : String)
    (hfd : db.findDatum datumId = some d)
    (hjob : db.findJob d.job_id = some job) :
    (∃ db', patch_datum db datumId
        { status := Status.done, output := output, error_message := none,
          backtrace := none }
        = Except.ok (Datum.markDoneRow output d, db') ∧
      (Datum.markDoneRow output d).status = Status.done) ∧
    (∀ p : DatumPatch, p.status = Status.done →
      p.error_message ≠ none ∨ p.backtrace ≠ none →
      patch_datum db datumId p = Except.error "cannot update datum") := by
  constructor
  · have hj1 : (db.updateDatumRow datumId (Datum.markDoneRow output)).findJob
        (Datum.markDoneRow output d).job_id = some job := hjob
    obtain ⟨dbu, hdbu⟩ := usid_ok_of_found
      (db.updateDatumRow datumId (Datum.markDoneRow output))
      (Datum.markDoneRow output d).job_id job hj1
    refine ⟨dbu, ?_, rfl⟩
    rw [patch_datum, hfd]
    simp only [Datum.update_job_status_if_done, hj1, hdbu]
    rfl
  · intro p hps hbad
    obtain ⟨ps, po, pe, pb⟩ := p
    simp only at hps
    subst hps
    rw [patch_datum, hfd]
    cases pe <;> cases pb
    · exact absurd hbad (by simp)
    · rfl
    · rfl
    · rfl

/-- Witness for amended C8: patching errored datum 30 with a done patch
succeeds and sets its status to done; malformed done patches are rejected. -/
theorem patch_datum_done_semantics_witness :
    (∃ db', patch_datum dbC8 30
        { status := Status.done, output := "out", error_message := none,
          backtrace := none }
        = Except.ok (Datum.markDoneRow "out" dC8, db') ∧
      (Datum.markDoneRow "out" dC8).status = Status.done) ∧
    (∀ p : DatumPatch, p.status = Status.done →
      p.error_message ≠ none ∨ p.backtrace ≠ none →
      patch_datum dbC8 30 p = Except.error "cannot update datum") :=
  patch_datum_done_semantics dbC8 30 dC8 jobC8 "out" (by decide) (by decide)

/-! ## C9: the WholeRepo plan shape -/

/-- Counterexample to C9: planning the WholeRepo atom uri gs://b/in, repo in
emits an InputFile whose local path is /pfs/in, which does not end with a
slash, contradicting the claimed /pfs/in/ form. -/
theorem whole_repo_local_path_cex :
    atom_to_datums_helper listingC9 "gs://b/in" "in" Glob.wholeRepo
      = Except.ok
          [{ input_files := [{ uri := "gs://b/in/", local_path := "/pfs/in" }] }]
    ∧ ends_with_slash "/pfs/in" = false := by decide

/-- Amended C9: for a WholeRepo atom the planner lists the uri first, so a
listing failure aborts planning with the same error; on success it emits
exactly one datum with a single InputFile whose uri is the atom's uri
normalized to end with a slash and whose local path is /pfs/<repo> with no
trailing slash. -/
theorem whole_repo_plan (list : Listing) (uri repo : String) :
    (∀ file_uris, list uri = Except.ok file_uris →
      atom_to_datums_helper list uri repo Glob.wholeRepo
        = Except.ok [{ input_files :=
            [{ uri := if ends_with_slash uri then uri else uri ++ "/",
               local_path := "/pfs/" ++ repo }] }]) ∧
    (∀ e, list uri = Except.error e →
      atom_to_datums_helper list uri repo Glob.wholeRepo = Except.error e) := by
  constructor
  · intro file_uris h
    rw [atom_to_datums_helper, h]
    rfl
  · intro e h
    rw [atom_to_datums_helper, h]
    rfl

/-- Witness for amended C9: the concrete WholeRepo atom plans to one datum
whose InputFile has uri gs://b/in/ and local path /pfs/in. -/
theorem whole_repo_plan_witness :
    atom_to_datums_helper listingC9 "gs://b/in" "in" Glob.wholeRepo
      = Except.ok [{ input_files :=
          [{ uri := if ends_with_slash "gs://b/in" then "gs://b/in"
               else "gs://b/in" ++ "/",
             local_path := "/pfs/" ++ "in" }] }] :=
  (whole_repo_plan listingC9 "gs://b/in" "in").1
    ["gs://b/in/a.csv", "gs://b/in/b.csv"] (by decide)

/-! ## C5: the cross identity -/

/-- The length of the pairwise cross product is the product of lengths. -/
theorem crossProductDatums_length (as bs : List DatumData) :
    (crossProductDatums as bs).length = as.length * bs.length := by
  induction as with
  | nil => simp [crossProductDatums]
  | cons a t ih =>
    rw [crossProductDatums] at ih ⊢
    rw [List.flatMap_cons, List.length_append, List.length_map, ih,
      List.length_cons, Nat.succ_mul, Nat.add_comm]

/-- Every datum of the pairwise cross product takes its input files from one
pair of factor datums. -/
theorem crossProductDatums_mem (as bs : List DatumData) (d : DatumData)
    (hd : d ∈ crossProductDatums as bs) :
    ∃ a ∈ as, ∃ b ∈ bs, d.input_files = a.input_files ++ b.input_files := by
  rw [crossProductDatums] at hd
  obtain ⟨a, ha, hd'⟩ := List.mem_flatMap.mp hd
  obtain ⟨b, hb, hd''⟩ := List.mem_map.mp hd'
  exact ⟨a, ha, b, hb, by rw [← hd'']⟩

/-- Claim C5: the planner's cross obeys the cross identity: the plan of
Cross([A,B]) is exactly the pairwise product of the plans of A and B (so its
size is the product of the factor sizes and each output datum's input files
are the concatenation of the files of one pair); Cross([]) plans to the
empty list, Cross([x]) plans exactly as x, and longer crosses are computed
by left-associated nesting (Cross([a,b,c]) is the pairwise product of
Cross([a,b]) with the plan of c). -/
theorem cross_identity (list : Listing) :
    (∀ (A B : Input) (as bs : List DatumData),
      input_to_datums_helper list A = Except.ok as →
      input_to_datums_helper list B = Except.ok bs →
      cross_to_datums_helper list [A, B]
          = Except.ok (crossProductDatums as bs) ∧
        (crossProductDatums as bs).length = as.length * bs.length ∧
        ∀ d ∈ crossProductDatums as bs,
          ∃ a ∈ as, ∃ b ∈ bs,
            d.input_files = a.input_files ++ b.input_files) ∧
    cross_to_datums_helper list [] = Except.ok [] ∧
    (∀ x : Input, cross_to_datums_helper list [x]
        = input_to_datums_helper list x) ∧
    (∀ (a b c : Input) (ds cs : List DatumData),
      cross_to_datums_helper list [a, b] = Except.ok ds →
      input_to_datums_helper list c = Except.ok cs →
      cross_to_datums_helper list [a, b, c]
        = Except.ok (crossProductDatums ds cs)) := by
  refine ⟨?_, ?_, ?_, ?_⟩
  · intro A B as bs hA hB
    refine ⟨?_, crossProductDatums_length as bs, crossProductDatums_mem as bs⟩
    rw [cross_to_datums_helper]
    have hgl : [A, B].getLast (by simp) = B := rfl
    have hdl : [A, B].dropLast = [A] := rfl
    rw [hdl, hgl]
    have h2 : cross_to_datums_helper list [A] = Except.ok as := by
      rw [cross_to_datums_helper]
      exact hA
    rw [h2, hB]
    rfl
  · simp [cross_to_datums_helper]
  · intro x
    simp [cross_to_datums_helper]
  · intro a b c ds cs hab hc
    rw [cross_to_datums_helper]
    have hgl : [a, b, c].getLast (by simp) = c := rfl
    have hdl : [a, b, c].dropLast = [a, b] := rfl
    rw [hdl, hgl, hab, hc]
    rfl

/-- Witness for C5: the cross of the cats and dogs atoms plans to the 2 × 2
pairwise product. -/
theorem cross_identity_witness :
    cross_to_datums_helper listingC5 [atomCats, atomDogs]
        = Except.ok (crossProductDatums catsDatums dogsDatums) ∧
      (crossProductDatums catsDatums dogsDatums).length
        = catsDatums.length * dogsDatums.length ∧
      ∀ d ∈ crossProductDatums catsDatums dogsDatums,
        ∃ a ∈ catsDatums, ∃ b ∈ dogsDatums,
          d.input_files = a.input_files ++ b.input_files :=
  (cross_identity listingC5).1 atomCats atomDogs catsDatums dogsDatums
    (by rw [atomCats, input_to_datums_helper]; decide)
    (by rw [atomDogs, input_to_datums_helper]; decide)

end Falconeri
